import Mathlib

/-!
Verification development for the Strings-Analyzer-Api repository.

The JavaScript sources are embedded shallowly:
* a JS string is modelled as a `List Char` (its sequence of Unicode code
  points; `Char` in Lean is exactly a Unicode scalar value);
* JS numbers that the code produces from `parseInt`/arithmetic are modelled
  as `Nat`/`Int` (ideal integers; the double-precision limits beyond 2^53
  are outside the model);
* `String.prototype.toLowerCase` is modelled by the Basic-Latin lowering
  `Char.toLower` (the inputs the compiler grammar recognizes are ASCII);
* JS regular expressions used by the natural-language parser are embedded
  as explicit leftmost-match scanners with the same alternation order and
  backtracking behaviour as the source patterns;
* the mongo query objects built by the controllers are modelled by a
  `StoreQuery` record together with the predicate `evalStoreQuery`, the
  membership test the query performs on a single stored record.

Sources embedded:
* src/utils/analyzer.js       (sha256Hex, charFrequencyMap, isPalindrome,
                               wordCount, analyze)
* src/unnamed/part_000        (two variants of parseNaturalLanguage:
                               variant A = lines 2-52, variant B = lines 56-114)
* src/unnamed/part_001        (query construction of getAllStrings lines
                               81-151 / 544-614 and filterByNaturalLanguage
                               lines 157-206)
-/

namespace StringsAnalyzer

/-! ## Character classes (JS regex `\s`, `\w`, `\d`, `[a-z]`) -/

/-- Code points matched by the JS regex class `\s` (ECMAScript WhiteSpace
and LineTerminator), which is also the set `String.prototype.trim` strips. -/
def wsCodes : List Nat :=
  [9, 10, 11, 12, 13, 32, 160, 5760,
   8192, 8193, 8194, 8195, 8196, 8197, 8198, 8199, 8200, 8201, 8202,
   8232, 8233, 8239, 8287, 12288, 65279]

/-- JS `\s` on a single code point. -/
def isWsJS (c : Char) : Bool := decide (c.toNat ∈ wsCodes)

/-- JS `\d`. -/
def isDigitC (c : Char) : Bool := decide (48 ≤ c.toNat ∧ c.toNat ≤ 57)

/-- The class `[a-z]`. -/
def isLowerAlpha (c : Char) : Bool := decide (97 ≤ c.toNat ∧ c.toNat ≤ 122)

/-- The class `[A-Z]`. -/
def isUpperAlpha (c : Char) : Bool := decide (65 ≤ c.toNat ∧ c.toNat ≤ 90)

/-- The class `[a-z]` under the `i` flag, i.e. `[a-zA-Z]`. -/
def isAlphaCI (c : Char) : Bool := isLowerAlpha c || isUpperAlpha c

/-- JS `\w`, the word-character class `[A-Za-z0-9_]` (used by `\b`). -/
def isWordC (c : Char) : Bool := isLowerAlpha c || isUpperAlpha c || isDigitC c || c = '_'

/-- `String.prototype.toLowerCase`, restricted to the Basic Latin range:
exactly core `Char.toLower` (A-Z map to a-z, everything else unchanged). -/
def toLowerJS (c : Char) : Char := Char.toLower c

/-- `String.prototype.trim`: strip leading and trailing `\s` characters. -/
def trimJS (l : List Char) : List Char :=
  ((l.dropWhile isWsJS).reverse.dropWhile isWsJS).reverse

/-! ## src/utils/analyzer.js -/

/-- `value.replace(/\s+/g, "")`: with an empty replacement, replacing every
maximal run of whitespace is removing every whitespace character. -/
def stripWs : List Char → List Char
  | [] => []
  | c :: t => if isWsJS c then stripWs t else c :: stripWs t

/-- analyzer.js lines 27-31: strip whitespace, lower-case, compare with the
reversal (`normalized === rev`). -/
def isPalindrome (value : List Char) : Bool :=
  let normalized := (stripWs value).map toLowerJS
  decide (normalized = normalized.reverse)

/-- One step of the loop of `charFrequencyMap`: `map[ch] = (map[ch] || 0) + 1`
on an object kept as an association list in key-insertion order. -/
def bump : List (Char × Nat) → Char → List (Char × Nat)
  | [], c => [(c, 1)]
  | (k, v) :: t, c => if k = c then (k, v + 1) :: t else (k, v) :: bump t c

/-- analyzer.js lines 15-21: `for (const ch of value)` iterates the code
points of the string and counts each one (case-sensitive). -/
def charFrequencyMap (value : List Char) : List (Char × Nat) :=
  value.foldl bump []

/-- Lookup of a key in the frequency-map object. -/
def assocLookup (c : Char) : List (Char × Nat) → Option Nat
  | [] => none
  | (k, v) :: t => if k = c then some v else assocLookup c t

/-- Number of maximal non-whitespace runs; on a trimmed non-empty string
this is `value.trim().split(/\s+/).length`. `inTok` records whether the
previous character was part of a token. -/
def countTokensAux (inTok : Bool) : List Char → Nat
  | [] => 0
  | c :: t =>
      if isWsJS c then countTokensAux false t
      else (if inTok then 0 else 1) + countTokensAux true t

/-- analyzer.js lines 36-39: `if (!value || !value.trim()) return 0;
return value.trim().split(/\s+/).length`. -/
def wordCount (value : List Char) : Nat :=
  if (trimJS value).isEmpty then 0 else countTokensAux false (trimJS value)

/-- JS `value.length`: the number of UTF-16 code units (an astral code
point is a surrogate pair and counts 2). -/
def utf16Length (value : List Char) : Nat :=
  (value.map fun c => if c.toNat < 65536 then 1 else 2).sum

/-! ## IdentifierScheme: crypto.createHash("sha256").update(value, "utf8").digest("hex")

The Node crypto library's SHA-256 is embedded in full (FIPS 180-4) so that
the identifier computation is a genuine executable function of the string. -/

/-- UTF-8 encoding of one code point. -/
def utf8Bytes (c : Char) : List Nat :=
  let n := c.toNat
  if n < 128 then [n]
  else if n < 2048 then [192 + n / 64, 128 + n % 64]
  else if n < 65536 then [224 + n / 4096, 128 + n / 64 % 64, 128 + n % 64]
  else [240 + n / 262144, 128 + n / 4096 % 64, 128 + n / 64 % 64, 128 + n % 64]

/-- SHA-256 round constants (fractional parts of the cube roots of the
first 64 primes). -/
def shaK : List Nat :=
  [1116352408, 1899447441, 3049323471, 3921009573,
   961987163, 1508970993, 2453635748, 2870763221,
   3624381080, 310598401, 607225278, 1426881987,
   1925078388, 2162078206, 2614888103, 3248222580,
   3835390401, 4022224774, 264347078, 604807628,
   770255983, 1249150122, 1555081692, 1996064986,
   2554220882, 2821834349, 2952996808, 3210313671,
   3336571891, 3584528711, 113926993, 338241895,
   666307205, 773529912, 1294757372, 1396182291,
   1695183700, 1986661051, 2177026350, 2456956037,
   2730485921, 2820302411, 3259730800, 3345764771,
   3516065817, 3600352804, 4094571909, 275423344,
   430227734, 506948616, 659060556, 883997877,
   958139571, 1322822218, 1537002063, 1747873779,
   1955562222, 2024104815, 2227730452, 2361852424,
   2428436474, 2756734187, 3204031479, 3329325298]

/-- The eight working variables of the compression function. -/
structure H8 where
  a : Nat
  b : Nat
  c : Nat
  d : Nat
  e : Nat
  f : Nat
  g : Nat
  h : Nat
deriving DecidableEq

/-- SHA-256 initial hash value. -/
def shaH0 : H8 :=
  ⟨1779033703, 3144134277, 1013904242, 2773480762,
   1359893119, 2600822924, 528734635, 1541459225⟩

/-- Right rotation of a 32-bit word (the argument is below `2 ^ 32`). -/
def rotr (n x : Nat) : Nat := x / 2 ^ n + x % 2 ^ n * 2 ^ (32 - n)

/-- Logical right shift. -/
def shrW (n x : Nat) : Nat := x / 2 ^ n

def sigmaA0 (x : Nat) : Nat := rotr 2 x ^^^ rotr 13 x ^^^ rotr 22 x

def sigmaA1 (x : Nat) : Nat := rotr 6 x ^^^ rotr 11 x ^^^ rotr 25 x

def sigmaB0 (x : Nat) : Nat := rotr 7 x ^^^ rotr 18 x ^^^ shrW 3 x

def sigmaB1 (x : Nat) : Nat := rotr 17 x ^^^ rotr 19 x ^^^ shrW 10 x

def shaCh (x y z : Nat) : Nat := x &&& y ^^^ (x ^^^ 4294967295) &&& z

def shaMaj (x y z : Nat) : Nat := x &&& y ^^^ x &&& z ^^^ y &&& z

/-- Merkle-Damgard padding: append `0x80`, zeros to 56 mod 64, and the
bit length as 8 big-endian bytes. -/
def shaPad (msg : List Nat) : List Nat :=
  let len := msg.length
  let bits := 8 * len
  msg ++ [128] ++ List.replicate ((64 - (len + 9) % 64) % 64) 0 ++
    [bits / 2 ^ 56 % 256, bits / 2 ^ 48 % 256, bits / 2 ^ 40 % 256,
     bits / 2 ^ 32 % 256, bits / 2 ^ 24 % 256, bits / 2 ^ 16 % 256,
     bits / 2 ^ 8 % 256, bits % 256]

/-- Split the padded byte sequence into 64-byte blocks. -/
def chunk64 : List Nat → List (List Nat)
  | [] => []
  | x :: xs => ((x :: xs).take 64) :: chunk64 ((x :: xs).drop 64)
termination_by l => l.length
decreasing_by simp [List.length_drop]; omega

/-- Big-endian 32-bit words from bytes. -/
def bytesToWords : List Nat → List Nat
  | b0 :: b1 :: b2 :: b3 :: t =>
      (b0 * 2 ^ 24 + b1 * 2 ^ 16 + b2 * 2 ^ 8 + b3) :: bytesToWords t
  | _ => []

/-- Extend the 16-word block to the 64-word message schedule; `fuel` counts
the remaining 48 extension steps. -/
def extendW : Nat → List Nat → List Nat
  | 0, w => w
  | fuel + 1, w =>
      let t := w.length
      extendW fuel (w ++
        [(sigmaB1 (w.getD (t - 2) 0) + w.getD (t - 7) 0 +
          sigmaB0 (w.getD (t - 15) 0) + w.getD (t - 16) 0) % 2 ^ 32])

/-- One of the 64 compression rounds; `kw` is the pair of round constant
and schedule word. -/
def roundStep (st : H8) (kw : Nat × Nat) : H8 :=
  let t1 := (st.h + sigmaA1 st.e + shaCh st.e st.f st.g + kw.1 + kw.2) % 2 ^ 32
  let t2 := (sigmaA0 st.a + shaMaj st.a st.b st.c) % 2 ^ 32
  ⟨(t1 + t2) % 2 ^ 32, st.a, st.b, st.c, (st.d + t1) % 2 ^ 32, st.e, st.f, st.g⟩

/-- Compress one 64-byte block into the running hash state. -/
def compressBlock (st : H8) (block : List Nat) : H8 :=
  let w := extendW 48 (bytesToWords block)
  let r := (shaK.zip w).foldl roundStep st
  ⟨(st.a + r.a) % 2 ^ 32, (st.b + r.b) % 2 ^ 32, (st.c + r.c) % 2 ^ 32,
   (st.d + r.d) % 2 ^ 32, (st.e + r.e) % 2 ^ 32, (st.f + r.f) % 2 ^ 32,
   (st.g + r.g) % 2 ^ 32, (st.h + r.h) % 2 ^ 32⟩

/-- One lowercase hexadecimal digit. -/
def hexDigit (n : Nat) : Char :=
  match n with
  | 0 => '0' | 1 => '1' | 2 => '2' | 3 => '3' | 4 => '4'
  | 5 => '5' | 6 => '6' | 7 => '7' | 8 => '8' | 9 => '9'
  | 10 => 'a' | 11 => 'b' | 12 => 'c' | 13 => 'd' | 14 => 'e' | _ => 'f'

/-- Eight hex digits of a 32-bit word, most significant first. -/
def toHex8 (x : Nat) : List Char :=
  [hexDigit (x / 16 ^ 7 % 16), hexDigit (x / 16 ^ 6 % 16),
   hexDigit (x / 16 ^ 5 % 16), hexDigit (x / 16 ^ 4 % 16),
   hexDigit (x / 16 ^ 3 % 16), hexDigit (x / 16 ^ 2 % 16),
   hexDigit (x / 16 % 16), hexDigit (x % 16)]

/-- analyzer.js lines 7-9: the sha256 hex digest of the UTF-8 bytes of the
string, as a 64-character lowercase hex string. -/
def sha256Hex (value : List Char) : List Char :=
  let bytes := (value.map utf8Bytes).flatten
  let d := (chunk64 (shaPad bytes)).foldl compressBlock shaH0
  toHex8 d.a ++ toHex8 d.b ++ toHex8 d.c ++ toHex8 d.d ++
  toHex8 d.e ++ toHex8 d.f ++ toHex8 d.g ++ toHex8 d.h

/-! ## The Properties record and analyze -/

/-- The properties object analyzer.js lines 55-62 returns. -/
structure Properties where
  length : Nat
  is_palindrome : Bool
  unique_characters : Nat
  word_count : Nat
  sha256_hash : List Char
  character_frequency_map : List (Char × Nat)
deriving DecidableEq

/-- analyzer.js lines 44-63 (the non-string `TypeError` branch is outside
the model: the argument type is already `List Char`). -/
def analyze (value : List Char) : Properties :=
  { length := utf16Length value
    is_palindrome := isPalindrome value
    unique_characters := (charFrequencyMap value).length
    word_count := wordCount value
    sha256_hash := sha256Hex value
    character_frequency_map := charFrequencyMap value }

/-! ## Regex scanners for src/unnamed/part_000

Each JS regex is embedded as a scanner that tries the pattern at every
position from the left (leftmost match) and, at one position, tries the
alternatives in source order (regex alternation priority). -/

/-- Match a literal pattern at the head; `some rest` on success. -/
def matchLit : List Char → List Char → Option (List Char)
  | [], s => some s
  | _ :: _, [] => none
  | p :: ps, c :: cs => if p = c then matchLit ps cs else none

/-- `\b` after a match whose last character is a word character: end of
input or a non-word character next. -/
def boundaryAfter : List Char → Bool
  | [] => true
  | c :: _ => !isWordC c

/-- Scan for a word-boundary-anchored test pattern: `here` is the attempt
at the current position, `prevW` whether the previous character was a word
character (the patterns all begin with a word character, so `\b` holds
exactly when the previous character is not one). -/
def scanBdry (here : List Char → Bool) (prevW : Bool) : List Char → Bool
  | [] => false
  | c :: cs => (!prevW && here (c :: cs)) || scanBdry here (isWordC c) cs

/-- Scan for a capturing pattern with no leading `\b`. -/
def scanCapture (here : List Char → Option Char) : List Char → Option Char
  | [] => none
  | c :: cs =>
      match here (c :: cs) with
      | some x => some x
      | none => scanCapture here cs

/-- literal pattern `word` -/
def litWord : List Char := ['w', 'o', 'r', 'd']

/-- literal pattern `single` -/
def litSingle : List Char := ['s', 'i', 'n', 'g', 'l', 'e']

/-- literal pattern `one` -/
def litOne : List Char := ['o', 'n', 'e']

/-- literal pattern `palindrom` -/
def litPalindrom : List Char := ['p', 'a', 'l', 'i', 'n', 'd', 'r', 'o', 'm']

/-- literal pattern `palindromic` -/
def litPalindromic : List Char :=
  ['p', 'a', 'l', 'i', 'n', 'd', 'r', 'o', 'm', 'i', 'c']

/-- literal pattern ` string` -/
def litSpString : List Char := [' ', 's', 't', 'r', 'i', 'n', 'g']

/-- literal pattern `longer than ` (with the trailing blank before `(\d+)`) -/
def litLongerThan : List Char :=
  ['l', 'o', 'n', 'g', 'e', 'r', ' ', 't', 'h', 'a', 'n', ' ']

/-- literal pattern `shorter than ` -/
def litShorterThan : List Char :=
  ['s', 'h', 'o', 'r', 't', 'e', 'r', ' ', 't', 'h', 'a', 'n', ' ']

/-- literal pattern `containing the letter ` -/
def litContainingTheLetter : List Char :=
  ['c', 'o', 'n', 't', 'a', 'i', 'n', 'i', 'n', 'g', ' ', 't', 'h', 'e',
   ' ', 'l', 'e', 't', 't', 'e', 'r', ' ']

/-- literal pattern `containing ` -/
def litContaining : List Char :=
  ['c', 'o', 'n', 't', 'a', 'i', 'n', 'i', 'n', 'g', ' ']

/-- literal pattern `contains ` -/
def litContainsSp : List Char :=
  ['c', 'o', 'n', 't', 'a', 'i', 'n', 's', ' ']

/-- literal pattern `first vowel` -/
def litFirstVowel : List Char :=
  ['f', 'i', 'r', 's', 't', ' ', 'v', 'o', 'w', 'e', 'l']

/-- `[- ]?word\b`: greedy optional separator (with backtracking), then the
literal `word`, then `\b`. -/
def sepWordTail (r : List Char) : Bool :=
  match r with
  | [] => false
  | c :: cs =>
      if c = '-' || c = ' ' then
        match matchLit litWord cs with
        | some t => boundaryAfter t
        | none =>
            match matchLit litWord (c :: cs) with
            | some t => boundaryAfter t
            | none => false
      else
        match matchLit litWord (c :: cs) with
        | some t => boundaryAfter t
        | none => false

/-- One position of `\b(?:single[- ]?word|one[- ]?word)\b` (variant A). -/
def hereSingleWordA (s : List Char) : Bool :=
  match matchLit litSingle s with
  | some r => sepWordTail r
  | none =>
      match matchLit litOne s with
      | some r => sepWordTail r
      | none => false

/-- One position of `\bsingle[- ]?word\b` (variant B, first test). -/
def hereSingleWordB (s : List Char) : Bool :=
  match matchLit litSingle s with
  | some r => sepWordTail r
  | none => false

/-- One position of `\bone[- ]word\b` (variant B, second test: the
separator is required there). -/
def hereOneWordB (s : List Char) : Bool :=
  match matchLit litOne s with
  | some (c :: cs) =>
      if c = '-' || c = ' ' then
        match matchLit litWord cs with
        | some t => boundaryAfter t
        | none => false
      else false
  | _ => false

/-- One position of `\bpalindrom(?:e|ic)\b` (variant A). -/
def herePalA (s : List Char) : Bool :=
  match matchLit litPalindrom s with
  | some ('e' :: t) => boundaryAfter t
  | some ('i' :: 'c' :: t) => boundaryAfter t
  | _ => false

/-- One position of `\bpalindrom(e|ic|ic strings?)\b` (variant B): the
alternatives are tried in order, the third with a greedy optional `s`. -/
def herePalB (s : List Char) : Bool :=
  match matchLit litPalindrom s with
  | some ('e' :: t) => boundaryAfter t
  | some ('i' :: 'c' :: t) =>
      boundaryAfter t ||
      (match matchLit litSpString t with
       | some ('s' :: u) => boundaryAfter u
       | some u => boundaryAfter u
       | none => false)
  | _ => false

/-- One position of `\bpalindromic\b` (variant B's second palindrome test). -/
def herePalBic (s : List Char) : Bool :=
  match matchLit litPalindromic s with
  | some t => boundaryAfter t
  | none => false

/-- One position of `\bfirst vowel\b`. -/
def hereFirstVowel (s : List Char) : Bool :=
  match matchLit litFirstVowel s with
  | some t => boundaryAfter t
  | none => false

/-- One alternative of the containment patterns: a literal followed by a
single captured character of class `cls`. -/
def altCap (lit : List Char) (cls : Char → Bool) (s : List Char) : Option Char :=
  match matchLit lit s with
  | some (x :: _) => if cls x then some x else none
  | _ => none

/-- One position of
`(?:containing the letter|containing|contains) ([a-z])/i` (variant A):
on failure of an alternative (including a class failure after its literal
matched) the next alternative is tried at the same position. -/
def hereContainsA (s : List Char) : Option Char :=
  match altCap litContainingTheLetter isAlphaCI s with
  | some x => some x
  | none =>
      match altCap litContaining isAlphaCI s with
      | some x => some x
      | none => altCap litContainsSp isAlphaCI s

/-- One position of
`containing the letter (\w)|containing (\w)|contains (\w)` (variant B);
the controller loop then reads the first non-empty capture, which is the
character of whichever alternative matched. -/
def hereContainsB (s : List Char) : Option Char :=
  match altCap litContainingTheLetter isWordC s with
  | some x => some x
  | none =>
      match altCap litContaining isWordC s with
      | some x => some x
      | none => altCap litContainsSp isWordC s

/-- One position of `<lit>(\d+)`: the literal then a greedy non-empty run
of digits, returned as the capture. -/
def hereDigits (lit : List Char) (s : List Char) : Option (List Char) :=
  match matchLit lit s with
  | some r =>
      let d := r.takeWhile isDigitC
      if d.isEmpty then none else some d
  | none => none

/-- Leftmost match of `<lit>(\d+)`. -/
def scanDigits (lit : List Char) : List Char → Option (List Char)
  | [] => none
  | c :: cs =>
      match hereDigits lit (c :: cs) with
      | some d => some d
      | none => scanDigits lit cs

/-- `q.match(/longer than (\d+)/i)`, the captured digit run. -/
def scanLonger (q : List Char) : Option (List Char) := scanDigits litLongerThan q

/-- `q.match(/shorter than (\d+)/i)`, the captured digit run. -/
def scanShorter (q : List Char) : Option (List Char) := scanDigits litShorterThan q

/-- `parseInt` on a non-empty digit string. -/
def digitsVal (d : List Char) : Nat :=
  d.foldl (fun a c => a * 10 + (c.toNat - 48)) 0

/-! ## The FilterSpec and the two parser variants -/

/-- The parsed-filters object (spec section 3 FilterSpec); a missing key of
the JS object is `none`. -/
structure FilterSpec where
  word_count : Option Int := none
  is_palindrome : Option Bool := none
  min_length : Option Int := none
  max_length : Option Int := none
  contains_character : Option Char := none
deriving DecidableEq

/-- The object with no key set, `Object.keys(parsed).length === 0`. -/
def emptySpec : FilterSpec := {}

/-- The two failure modes of `parseNaturalLanguage`: the plain
`Error("Query must be a non-empty string")` of the input guard, and the
error carrying `err.code = "UNPARSEABLE"`. -/
inductive ParseErr where
  | invalidQuery : ParseErr
  | unparseable : ParseErr
deriving DecidableEq

/-- Equality of parse results is decidable (used to evaluate the parser on
concrete sentences inside proofs). -/
instance : DecidableEq (Except ParseErr FilterSpec) := fun a b =>
  match a, b with
  | .error x, .error y =>
      if h : x = y then .isTrue (by rw [h])
      else .isFalse (by intro hh; cases hh; exact h rfl)
  | .ok x, .ok y =>
      if h : x = y then .isTrue (by rw [h])
      else .isFalse (by intro hh; cases hh; exact h rfl)
  | .error _, .ok _ => .isFalse (by intro hh; cases hh)
  | .ok _, .error _ => .isFalse (by intro hh; cases hh)

/-- The rule table of variant A (part_000 lines 10-43) applied to the
lower-cased sentence; each rule contributes its own field, and for
`contains_character` the containment capture wins over the `first vowel`
fallback (`parsed.contains_character || "a"`). -/
def buildA (q : List Char) : FilterSpec :=
  { word_count := if scanBdry hereSingleWordA false q then some 1 else none
    is_palindrome := if scanBdry herePalA false q then some true else none
    min_length := (scanLonger q).map fun d => (digitsVal d : Int) + 1
    max_length := (scanShorter q).map fun d => (digitsVal d : Int) - 1
    contains_character :=
      match (scanCapture hereContainsA q).map toLowerJS with
      | some x => some x
      | none => if scanBdry hereFirstVowel false q then some 'a' else none }

/-- The rule table of variant B (part_000 lines 65-104); the `first vowel`
rule assigns `parsed.contains_character = "a"` unconditionally, overwriting
any containment capture, and the capture is stored without re-lowering
(the sentence is already lower-cased). -/
def buildB (q : List Char) : FilterSpec :=
  { word_count :=
      if scanBdry hereSingleWordB false q || scanBdry hereOneWordB false q
      then some 1 else none
    is_palindrome :=
      if scanBdry herePalB false q || scanBdry herePalBic false q
      then some true else none
    min_length := (scanLonger q).map fun d => (digitsVal d : Int) + 1
    max_length := (scanShorter q).map fun d => (digitsVal d : Int) - 1
    contains_character :=
      if scanBdry hereFirstVowel false q then some 'a'
      else scanCapture hereContainsB q }

/-- part_000 lines 2-52: guard `typeof query !== "string" || !query.trim()`
(the type test is outside the model), lower-case, apply the rules, fail
`UNPARSEABLE` when no key was set. -/
def parseNaturalLanguageA (query : List Char) : Except ParseErr FilterSpec :=
  if (trimJS query).isEmpty then .error .invalidQuery
  else
    let parsed := buildA (query.map toLowerJS)
    if parsed = emptySpec then .error .unparseable else .ok parsed

/-- part_000 lines 56-114: guard `!query || typeof query !== "string"`
(only the empty string is falsy here — no trim), lower-case, apply the
rules, fail `UNPARSEABLE` when no key was set. -/
def parseNaturalLanguageB (query : List Char) : Except ParseErr FilterSpec :=
  if query.isEmpty then .error .invalidQuery
  else
    let parsed := buildB (query.map toLowerJS)
    if parsed = emptySpec then .error .unparseable else .ok parsed

/-- `true` exactly on the failing results. -/
def isErr : Except ParseErr FilterSpec → Bool
  | .error _ => true
  | .ok _ => false

/-! ## The store queries of src/unnamed/part_001 -/

/-- The mongo query object the controllers build: optional exact matches on
`properties.is_palindrome` and `properties.word_count`, accumulated
`$gte`/`$lte` bounds on `properties.length`, and an
`$exists: true, $gt: 0` condition on one key of
`properties.character_frequency_map`. -/
structure StoreQuery where
  pal : Option Bool := none
  gte : Option Int := none
  lte : Option Int := none
  wc : Option Int := none
  freqKey : Option Char := none
deriving DecidableEq

/-- part_001 lines 92-125 (`getAllStrings`, first controller variant): the
query built from validated explicit parameters whose values are the fields
of `f`; `contains_character` is lower-cased (line 123) and queried as a
single map key. -/
def toStoreQueryExplicit (f : FilterSpec) : StoreQuery :=
  { pal := f.is_palindrome
    gte := f.min_length
    lte := f.max_length
    wc := f.word_count
    freqKey := f.contains_character.map toLowerJS }

/-- part_001 lines 582-588 (`getAllStrings`, third controller variant):
same query but the map key is the parameter exactly as given, without
lower-casing. -/
def toStoreQueryExplicitRaw (f : FilterSpec) : StoreQuery :=
  { pal := f.is_palindrome
    gte := f.min_length
    lte := f.max_length
    wc := f.word_count
    freqKey := f.contains_character }

/-- part_001 lines 173-184 (`filterByNaturalLanguage`, first controller
variant): the query built from the parsed filters; the parsed character is
lower-cased (line 180; its `length === 1` guard always holds for the
single-character captures the parser produces). -/
def toStoreQueryNL (f : FilterSpec) : StoreQuery :=
  { pal := f.is_palindrome
    gte := f.min_length
    lte := f.max_length
    wc := f.word_count
    freqKey :=
      match f.contains_character with
      | some c => some (toLowerJS c)
      | none => none }

/-- Whether one stored record satisfies the mongo query: equality on the
exact-match fields, `$gte`/`$lte` on the numeric length, and for the
frequency-map key `$exists: true, $gt: 0` — the key must be present with a
strictly positive value. An absent criterion matches vacuously. -/
def evalStoreQuery (q : StoreQuery) (p : Properties) : Bool :=
  (match q.pal with | none => true | some b => p.is_palindrome = b) &&
  (match q.gte with | none => true | some n => n ≤ (p.length : Int)) &&
  (match q.lte with | none => true | some n => (p.length : Int) ≤ n) &&
  (match q.wc with | none => true | some n => (p.word_count : Int) = n) &&
  (match q.freqKey with
   | none => true
   | some c =>
       match assocLookup c p.character_frequency_map with
       | some v => decide (0 < v)
       | none => false)

/-! ## Decimal numerals and concrete sentences used by the theorems -/

/-- The decimal digit character of `d < 10`. -/
def digitChar (d : Nat) : Char :=
  match d with
  | 0 => '0' | 1 => '1' | 2 => '2' | 3 => '3' | 4 => '4'
  | 5 => '5' | 6 => '6' | 7 => '7' | 8 => '8' | _ => '9'

/-- The decimal numeral of a natural number, most significant digit first
(what a sentence writes for the bound `N`). -/
def natDigits (n : Nat) : List Char :=
  if h : n < 10 then [digitChar n]
  else natDigits (n / 10) ++ [digitChar (n % 10)]
decreasing_by exact Nat.div_lt_self (by omega) (by omega)

/-- The 62 alphanumeric characters (the tokens the `contains` rule of the
spec ranges over). -/
def alphaNumChars : List Char :=
  ['a', 'b', 'c', 'd', 'e', 'f', 'g', 'h', 'i', 'j', 'k', 'l', 'm',
   'n', 'o', 'p', 'q', 'r', 's', 't', 'u', 'v', 'w', 'x', 'y', 'z',
   'A', 'B', 'C', 'D', 'E', 'F', 'G', 'H', 'I', 'J', 'K', 'L', 'M',
   'N', 'O', 'P', 'Q', 'R', 'S', 'T', 'U', 'V', 'W', 'X', 'Y', 'Z',
   '0', '1', '2', '3', '4', '5', '6', '7', '8', '9']

/-- The sentence `palindromic strings longer than 5` of the spec's literal
scenario. -/
def sentPalLonger5 : List Char :=
  ['p', 'a', 'l', 'i', 'n', 'd', 'r', 'o', 'm', 'i', 'c', ' ',
   's', 't', 'r', 'i', 'n', 'g', 's', ' ',
   'l', 'o', 'n', 'g', 'e', 'r', ' ', 't', 'h', 'a', 'n', ' ', '5']

/-- The sentence `strings shorter than 10 containing the letter a` of the
spec's literal scenario. -/
def sentShorter10A : List Char :=
  ['s', 't', 'r', 'i', 'n', 'g', 's', ' ',
   's', 'h', 'o', 'r', 't', 'e', 'r', ' ', 't', 'h', 'a', 'n', ' ',
   '1', '0', ' ',
   'c', 'o', 'n', 't', 'a', 'i', 'n', 'i', 'n', 'g', ' ', 't', 'h', 'e',
   ' ', 'l', 'e', 't', 't', 'e', 'r', ' ', 'a']

/-- A sentence matched by both the containment rule (capturing `x`) and the
`first vowel` rule: `containing x first vowel`. -/
def sentContainsXFV : List Char :=
  ['c', 'o', 'n', 't', 'a', 'i', 'n', 'i', 'n', 'g', ' ', 'x', ' ',
   'f', 'i', 'r', 's', 't', ' ', 'v', 'o', 'w', 'e', 'l']

/-- The string `A man a man` of the spec's palindrome scenario. -/
def sentAManAMan : List Char :=
  ['A', ' ', 'm', 'a', 'n', ' ', 'a', ' ', 'm', 'a', 'n']

/-- The string `Hello`. -/
def sentHello : List Char := ['H', 'e', 'l', 'l', 'o']

/-- An astral (non-BMP) code point, U+1F600: one logical character that is
two UTF-16 code units. -/
def astralChar : Char := Char.ofNat 128512

/-! ## Helper lemmas: characters, trim, strip -/

/-- `Char.ofNat` on a value below the surrogate range keeps its code. -/
theorem charToNat_ofNat_of_lt {n : Nat} (h : n < 55296) :
    (Char.ofNat n).toNat = n := by
  rw [Char.ofNat, dif_pos (Or.inl h : n.isValidChar)]
  rfl

/-- The code point of the lowered character. -/
theorem toNat_toLowerJS (c : Char) :
    (toLowerJS c).toNat =
      if 65 ≤ c.toNat ∧ c.toNat ≤ 90 then c.toNat + 32 else c.toNat := by
  simp only [toLowerJS, Char.toLower]
  split
  · rename_i h
    exact charToNat_ofNat_of_lt (by omega)
  · rfl

/-- Lower-casing does not move a character into or out of the whitespace
class (A-Z and a-z are not whitespace). -/
theorem isWsJS_toLowerJS (c : Char) : isWsJS (toLowerJS c) = isWsJS c := by
  unfold isWsJS
  rw [decide_eq_decide, toNat_toLowerJS]
  simp only [wsCodes, List.mem_cons, List.not_mem_nil, or_false]
  split_ifs with h <;> omega

/-- Lower-casing fixes a digit. -/
theorem toLowerJS_of_isDigitC {c : Char} (h : isDigitC c = true) :
    toLowerJS c = c := by
  have hh : 48 ≤ c.toNat ∧ c.toNat ≤ 57 := by
    simpa [isDigitC] using h
  simp only [toLowerJS, Char.toLower]
  rw [if_neg (by omega)]

/-- A whole list satisfies a predicate iff its `dropWhile` rest does. -/
theorem forall_dropWhile {p : Char → Bool} {l : List Char} :
    (∀ a ∈ l.dropWhile p, p a = true) ↔ (∀ a ∈ l, p a = true) := by
  induction l with
  | nil => simp
  | cons c t ih =>
      by_cases h : p c = true
      · rw [List.dropWhile_cons, if_pos h]
        simp [h, ih]
      · rw [List.dropWhile_cons, if_neg h]

/-- The trimmed string is empty exactly when every character is whitespace. -/
theorem trimJS_eq_nil_iff (l : List Char) :
    trimJS l = [] ↔ ∀ a ∈ l, isWsJS a = true := by
  unfold trimJS
  rw [List.reverse_eq_nil_iff, List.dropWhile_eq_nil_iff]
  constructor
  · intro h a ha
    exact forall_dropWhile.mp (fun x hx => h x (List.mem_reverse.mpr hx)) a ha
  · intro h a ha
    exact forall_dropWhile.mpr h a (List.mem_reverse.mp ha)

/-- The run-removing `replace(/\s+/g, "")` is the whitespace filter. -/
theorem stripWs_eq_filter (l : List Char) :
    stripWs l = l.filter fun c => !isWsJS c := by
  induction l with
  | nil => rfl
  | cons c t ih =>
      by_cases h : isWsJS c = true
      · simp [stripWs, h, ih, List.filter_cons]
      · simp only [Bool.not_eq_true] at h
        simp [stripWs, h, ih, List.filter_cons]

/-- On a string of BMP code points the UTF-16 length is the number of code
points. -/
theorem utf16Length_eq_length (s : List Char) :
    (∀ c ∈ s, c.toNat < 65536) → utf16Length s = s.length := by
  induction s with
  | nil => intro _; rfl
  | cons c t ih =>
      intro h
      have hc : c.toNat < 65536 := h c (List.mem_cons_self c t)
      have ht := ih fun x hx => h x (List.mem_cons_of_mem c hx)
      simp only [utf16Length, List.map_cons, List.sum_cons, if_pos hc,
        List.length_cons]
      simp only [utf16Length] at ht
      omega

/-! ## Helper lemmas: the character-frequency map -/

/-- Looking up the bumped key. -/
theorem assocLookup_bump_self (m : List (Char × Nat)) (c : Char) :
    assocLookup c (bump m c) = some ((assocLookup c m).getD 0 + 1) := by
  induction m with
  | nil => simp [bump, assocLookup]
  | cons p t ih =>
      obtain ⟨k, v⟩ := p
      by_cases h : k = c
      · subst h
        simp [bump, assocLookup]
      · simp [bump, assocLookup, h, ih]

/-- Looking up another key after a bump. -/
theorem assocLookup_bump_ne (m : List (Char × Nat)) {c d : Char} (h : d ≠ c) :
    assocLookup c (bump m d) = assocLookup c m := by
  induction m with
  | nil => simp [bump, assocLookup, h]
  | cons p t ih =>
      obtain ⟨k, v⟩ := p
      by_cases hk : k = d
      · subst hk
        simp [bump, assocLookup, h]
      · by_cases hkc : k = c
        · subst hkc
          simp [bump, assocLookup, hk]
        · simp [bump, assocLookup, hk, hkc, ih]

/-- The loop of `charFrequencyMap` over `s`, started from any object `m`,
adds `s.count c` to the looked-up value of every key `c`. -/
theorem assocLookup_foldl_bump (s : List Char) :
    ∀ (m : List (Char × Nat)) (c : Char),
      assocLookup c (s.foldl bump m) =
        match assocLookup c m with
        | some v => some (v + s.count c)
        | none => if 0 < s.count c then some (s.count c) else none := by
  induction s with
  | nil =>
      intro m c
      simp only [List.foldl_nil, List.count_nil]
      match h : assocLookup c m with
      | some v => simp
      | none => simp
  | cons a t ih =>
      intro m c
      rw [List.foldl_cons]
      rw [ih (bump m a) c]
      by_cases hac : a = c
      · subst hac
        rw [assocLookup_bump_self m a]
        rw [List.count_cons_self]
        match h : assocLookup a m with
        | some v => simp [h]; omega
        | none => simp [h]; omega
      · rw [assocLookup_bump_ne m (fun hh => hac hh)]
        rw [List.count_cons_of_ne (fun hh => hac (hh.symm))]

/-- The frequency map of `s` at key `c` holds exactly the (positive) number
of occurrences of `c` in `s`. -/
theorem assocLookup_charFrequencyMap (s : List Char) (c : Char) :
    assocLookup c (charFrequencyMap s) =
      if 0 < s.count c then some (s.count c) else none := by
  have h := assocLookup_foldl_bump s [] c
  simpa [charFrequencyMap, assocLookup] using h

/-- The keys after a bump: unchanged when present, appended when new. -/
theorem keys_bump (m : List (Char × Nat)) (c : Char) :
    (bump m c).map Prod.fst =
      if c ∈ m.map Prod.fst then m.map Prod.fst
      else m.map Prod.fst ++ [c] := by
  induction m with
  | nil => simp [bump]
  | cons p t ih =>
      obtain ⟨k, v⟩ := p
      by_cases h : k = c
      · subst h
        simp [bump]
      · have hne : ¬ c = k := fun hh => h hh.symm
        simp only [bump, if_neg h, List.map_cons, ih, List.mem_cons, hne,
          false_or]
        split <;> simp

/-- Bumping keeps the keys without duplicates. -/
theorem nodup_keys_bump {m : List (Char × Nat)} (c : Char)
    (h : (m.map Prod.fst).Nodup) : ((bump m c).map Prod.fst).Nodup := by
  rw [keys_bump]
  split
  · exact h
  · rename_i hc
    simp only [List.nodup_append, List.nodup_cons, List.not_mem_nil,
      not_false_iff, List.nodup_nil, and_true, true_and]
    constructor
    · exact h
    · intro a ha
      simp only [List.mem_singleton]
      intro hh
      subst hh
      exact hc ha

/-- Bumping keeps all counts strictly positive. -/
theorem pos_bump {m : List (Char × Nat)} (c : Char)
    (h : ∀ p ∈ m, 0 < p.2) : ∀ p ∈ bump m c, 0 < p.2 := by
  induction m with
  | nil =>
      intro p hp
      simp only [bump, List.mem_singleton] at hp
      subst hp
      exact Nat.one_pos
  | cons q t ih =>
      obtain ⟨k, v⟩ := q
      intro p hp
      by_cases hk : k = c
      · simp only [bump] at hp
        rw [if_pos hk] at hp
        rcases List.mem_cons.mp hp with hp | hp
        · subst hp
          exact Nat.succ_pos v
        · exact h p (List.mem_cons_of_mem _ hp)
      · simp only [bump] at hp
        rw [if_neg hk] at hp
        rcases List.mem_cons.mp hp with hp | hp
        · subst hp
          exact h (k, v) (List.mem_cons_self _ _)
        · exact ih (fun q hq => h q (List.mem_cons_of_mem _ hq)) p hp

/-- The sum of the counts after a bump grows by one. -/
theorem sum_bump (m : List (Char × Nat)) (c : Char) :
    ((bump m c).map Prod.snd).sum = (m.map Prod.snd).sum + 1 := by
  induction m with
  | nil => simp [bump]
  | cons p t ih =>
      obtain ⟨k, v⟩ := p
      by_cases h : k = c
      · subst h
        simp [bump]
        omega
      · simp [bump, h, ih]
        omega

/-- Invariants of the whole frequency-map loop from any start object. -/
theorem charFrequencyMap_foldl_invariants (s : List Char) :
    ∀ m : List (Char × Nat),
      ((m.map Prod.fst).Nodup → ((s.foldl bump m).map Prod.fst).Nodup) ∧
      ((∀ p ∈ m, 0 < p.2) → ∀ p ∈ s.foldl bump m, 0 < p.2) ∧
      (((s.foldl bump m).map Prod.snd).sum = (m.map Prod.snd).sum + s.length) := by
  induction s with
  | nil => intro m; simp
  | cons a t ih =>
      intro m
      rw [List.foldl_cons]
      obtain ⟨ih1, ih2, ih3⟩ := ih (bump m a)
      refine ⟨fun h => ih1 (nodup_keys_bump a h),
              fun h => ih2 (pos_bump a h), ?_⟩
      rw [ih3, sum_bump]
      simp
      omega

/-! ## Helper lemmas: the digit-capturing scanners and decimal numerals -/

/-- A literal pattern matches its own prefix. -/
theorem matchLit_append (p r : List Char) : matchLit p (p ++ r) = some r := by
  induction p with
  | nil => rfl
  | cons a ps ih =>
      simp only [List.cons_append, matchLit, if_pos rfl]
      exact ih

/-- `digitChar` produces digits. -/
theorem isDigitC_digitChar (d : Nat) : isDigitC (digitChar d) = true := by
  unfold digitChar
  split <;> decide

/-- A list of digits is its own `takeWhile isDigitC`. -/
theorem takeWhile_digits (ds : List Char) (h : ∀ c ∈ ds, isDigitC c = true) :
    ds.takeWhile isDigitC = ds := by
  induction ds with
  | nil => rfl
  | cons c t ih =>
      rw [List.takeWhile_cons, if_pos (h c (List.mem_cons_self _ _)),
        ih fun x hx => h x (List.mem_cons_of_mem _ hx)]

/-- The digit pattern succeeds right at the head of `lit ++ ds`. -/
theorem hereDigits_self (lit : List Char) (ds : List Char) (hne : ds ≠ [])
    (hall : ∀ c ∈ ds, isDigitC c = true) :
    hereDigits lit (lit ++ ds) = some ds := by
  cases ds with
  | nil => exact absurd rfl hne
  | cons c t =>
      unfold hereDigits
      rw [matchLit_append]
      dsimp only
      rw [takeWhile_digits _ hall]
      rfl

/-- One scan step when the pattern already matches here. -/
theorem scanDigits_cons_of_here {lit : List Char} {c : Char} {cs ds : List Char}
    (h : hereDigits lit (c :: cs) = some ds) :
    scanDigits lit (c :: cs) = some ds := by
  unfold scanDigits
  rw [h]

/-- The scanner finds the digit capture on the canonical sentence
`lit ++ digits`. -/
theorem scanDigits_append (c0 : Char) (cs ds : List Char) (hne : ds ≠ [])
    (hall : ∀ c ∈ ds, isDigitC c = true) :
    scanDigits (c0 :: cs) ((c0 :: cs) ++ ds) = some ds := by
  have h := hereDigits_self (c0 :: cs) ds hne hall
  rw [List.cons_append] at h ⊢
  exact scanDigits_cons_of_here h

/-- On an all-whitespace sentence a scanner whose literal starts with a
non-whitespace character finds nothing. -/
theorem scanDigits_none_of_ws (c0 : Char) (cs : List Char)
    (h0 : isWsJS c0 = false) :
    ∀ q : List Char, (∀ c ∈ q, isWsJS c = true) →
      scanDigits (c0 :: cs) q = none := by
  intro q
  induction q with
  | nil => intro _; rfl
  | cons a t ih =>
      intro h
      have ha : isWsJS a = true := h a (List.mem_cons_self _ _)
      have hne : ¬ c0 = a := by
        intro he
        rw [he, ha] at h0
        cases h0
      have hh : hereDigits (c0 :: cs) (a :: t) = none := by
        unfold hereDigits
        simp only [matchLit]
        rw [if_neg hne]
      rw [scanDigits, hh]
      exact ih fun c hc => h c (List.mem_cons_of_mem _ hc)

/-- A numeral is never empty. -/
theorem natDigits_ne_nil (n : Nat) : natDigits n ≠ [] := by
  unfold natDigits
  split <;> simp

/-- A numeral is made of digits. -/
theorem natDigits_all_digit (n : Nat) : ∀ c ∈ natDigits n, isDigitC c = true := by
  induction n using Nat.strong_induction_on with
  | _ n ih =>
      unfold natDigits
      split
      · intro c hc
        simp only [List.mem_singleton] at hc
        subst hc
        exact isDigitC_digitChar n
      · rename_i h
        intro c hc
        rcases List.mem_append.mp hc with hc | hc
        · exact ih (n / 10) (Nat.div_lt_self (by omega) (by omega)) c hc
        · simp only [List.mem_singleton] at hc
          subst hc
          exact isDigitC_digitChar _

/-- `parseInt` of a one-digit numeral. -/
theorem digitsVal_digitChar (d : Nat) (h : d < 10) :
    digitsVal [digitChar d] = d := by
  interval_cases d <;> decide

/-- Appending a digit multiplies by ten. -/
theorem digitsVal_append (l : List Char) (c : Char) :
    digitsVal (l ++ [c]) = digitsVal l * 10 + (c.toNat - 48) := by
  unfold digitsVal
  rw [List.foldl_append]
  rfl

/-- `parseInt` reads back the numeral: the round trip on which the claim's
`N` rests. -/
theorem digitsVal_natDigits (n : Nat) : digitsVal (natDigits n) = n := by
  induction n using Nat.strong_induction_on with
  | _ n ih =>
      unfold natDigits
      split
      · rename_i h
        exact digitsVal_digitChar n h
      · rename_i h
        rw [digitsVal_append, ih (n / 10) (Nat.div_lt_self (by omega) (by omega))]
        have h10 : n % 10 < 10 := Nat.mod_lt _ (by omega)
        have hd : (digitChar (n % 10)).toNat - 48 = n % 10 := by
          have hh := digitsVal_digitChar (n % 10) h10
          simpa [digitsVal] using hh
        rw [hd]
        omega

/-- Lower-casing fixes a digit string. -/
theorem map_toLowerJS_digits (ds : List Char) (h : ∀ c ∈ ds, isDigitC c = true) :
    ds.map toLowerJS = ds := by
  induction ds with
  | nil => rfl
  | cons c t ih =>
      rw [List.map_cons, toLowerJS_of_isDigitC (h c (List.mem_cons_self _ _)),
        ih fun x hx => h x (List.mem_cons_of_mem _ hx)]

/-! ## The claims -/

/-- C6 (counterexample): the claim asserts
`analyze("A man a man").is_palindrome = true`, but the code computes
`false`: the normalized form `amanaman` is not equal to its reversal
`namanama`. -/
theorem C6_counterexample : (analyze sentAManAMan).is_palindrome = false := by
  decide

/-- C6 (amended): for every string `s`, `analyze(s).is_palindrome` is true
exactly when `s` with all whitespace removed and lower-cased equals its own
reversal (punctuation is not stripped); `analyze("Hello")` and
`analyze("A man a man")` are not palindromes, `analyze("")` is. -/
theorem C6_palindrome_amended :
    (∀ s : List Char,
      (analyze s).is_palindrome =
        decide ((s.filter fun c => !isWsJS c).map toLowerJS =
          (((s.filter fun c => !isWsJS c).map toLowerJS)).reverse)) ∧
    (analyze sentHello).is_palindrome = false ∧
    (analyze ([] : List Char)).is_palindrome = true ∧
    (analyze sentAManAMan).is_palindrome = false := by
  refine ⟨?_, by decide, by decide, by decide⟩
  intro s
  simp only [analyze, isPalindrome, stripWs_eq_filter]

/-- C8 (counterexample): the claim asserts `analyze(s).length` counts code
points; on the one-code-point string `"😀"` the code returns `2` (the JS
`String.length`, UTF-16 code units), not `1`. -/
theorem C8_counterexample :
    (analyze [astralChar]).length ≠ ([astralChar] : List Char).length := by
  decide

/-- C8 (amended): `analyze(s).length` is the number of UTF-16 code units of
`s`; it equals the number of Unicode code points exactly on strings whose
code points all lie in the Basic Multilingual Plane. -/
theorem C8_length_amended :
    (∀ s : List Char, (analyze s).length = utf16Length s) ∧
    (∀ s : List Char, (∀ c ∈ s, c.toNat < 65536) →
      (analyze s).length = s.length) := by
  exact ⟨fun s => rfl, fun s h => utf16Length_eq_length s h⟩

/-- C9: `analyze` and the identifier computation `sha256Hex` are pure
functions of their argument in this embedding (the sources read no state
besides the argument), so two invocations on equal inputs yield equal
outputs. -/
theorem C9_deterministic (s t : List Char) (h : s = t) :
    analyze s = analyze t ∧ sha256Hex s = sha256Hex t := by
  subst h
  exact ⟨rfl, rfl⟩

/-- C9 (witness): determinism at the concrete input `ab`. -/
theorem C9_deterministic_witness :
    analyze ['a', 'b'] = analyze ['a', 'b'] ∧
    sha256Hex ['a', 'b'] = sha256Hex ['a', 'b'] :=
  C9_deterministic ['a', 'b'] ['a', 'b'] rfl

/-- C10: the Properties of `analyze s` are internally consistent:
`unique_characters` is the number of (duplicate-free) keys of the
frequency map, every count is strictly positive, and the counts sum to the
number of Unicode code points of `s` (the length of the code-point list —
which, by C8, is not always the `length` field). -/
theorem C10_frequency_invariants (s : List Char) :
    (analyze s).unique_characters =
      (analyze s).character_frequency_map.length ∧
    ((analyze s).character_frequency_map.map Prod.fst).Nodup ∧
    (∀ p ∈ (analyze s).character_frequency_map, 0 < p.2) ∧
    ((analyze s).character_frequency_map.map Prod.snd).sum = s.length := by
  obtain ⟨h1, h2, h3⟩ := charFrequencyMap_foldl_invariants s []
  refine ⟨rfl, h1 (by simp), h2 (by simp), ?_⟩
  have hh : ((s.foldl bump []).map Prod.snd).sum = s.length := by
    simpa using h3
  exact hh

/-- C1 (counterexample): the claim asserts the matcher checks both cases of
the character. For the stored string `"A"` (frequency map `{A: 1}`) and the
lowercase filter character `a`, the map has a strictly positive entry for
the character in upper case, yet every query form — the explicit path
(which lower-cases), the natural-language path, and the raw third-variant
path — returns `false`: only a single key is consulted. -/
theorem C1_counterexample :
    evalStoreQuery (toStoreQueryExplicit { contains_character := some 'a' })
      (analyze ['A']) = false ∧
    evalStoreQuery (toStoreQueryNL { contains_character := some 'a' })
      (analyze ['A']) = false ∧
    evalStoreQuery (toStoreQueryExplicitRaw { contains_character := some 'a' })
      (analyze ['A']) = false ∧
    assocLookup 'A' (analyze ['A']).character_frequency_map = some 1 := by
  decide

/-- C1 (amended): for every stored string and filter character `c`, both the
explicit-path and the natural-language-path store query with
`contains_character = c` select the record exactly when the lower-cased `c`
itself occurs (case-sensitively) in the stored value — the uppercase key is
never consulted. -/
theorem C1_contains_amended (s : List Char) (c : Char) :
    evalStoreQuery (toStoreQueryExplicit { contains_character := some c })
      (analyze s) = decide (toLowerJS c ∈ s) ∧
    evalStoreQuery (toStoreQueryNL { contains_character := some c })
      (analyze s) = decide (toLowerJS c ∈ s) := by
  have key : ∀ k : Char,
      (match assocLookup k (charFrequencyMap s) with
        | some v => decide (0 < v)
        | none => false) = decide (k ∈ s) := by
    intro k
    rw [assocLookup_charFrequencyMap]
    by_cases h : 0 < s.count k
    · rw [if_pos h]
      simp [h, List.count_pos_iff.mp h]
    · rw [if_neg h]
      have hm : k ∉ s := fun hmem => h (List.count_pos_iff.mpr hmem)
      simp [hm]
  constructor
  · simp only [evalStoreQuery, toStoreQueryExplicit, analyze, Option.map]
    simpa using key (toLowerJS c)
  · simp only [evalStoreQuery, toStoreQueryNL, analyze]
    simpa using key (toLowerJS c)

/-- C2: on the sentence `containing x first vowel` both the containment
rule and the `first vowel` rule match. Parser variant A (part_000 lines
40-43) keeps the captured `x` as the claim and the spec's precedence rule
require; parser variant B (part_000 lines 101-104) overwrites it with the
fallback `'a'` — the code bug the claim exposes. -/
theorem C2_precedence_divergence :
    parseNaturalLanguageB sentContainsXFV =
      Except.ok { contains_character := some 'a' } ∧
    parseNaturalLanguageA sentContainsXFV =
      Except.ok { contains_character := some 'x' } := by
  decide

/-- C3 (counterexample): the claim asserts a typed `Unparseable` failure
for a sentence that is empty after trimming; on the whitespace-only
sentence the parser (variant A) instead throws the plain invalid-query
error, which carries no `UNPARSEABLE` code. -/
theorem C3_counterexample :
    parseNaturalLanguageA [' ', ' ', ' '] = Except.error ParseErr.invalidQuery ∧
    ParseErr.invalidQuery ≠ ParseErr.unparseable := by
  decide

/-- C3 (amended): compilation fails exactly when the sentence is empty
after trimming or no rule sets a field; the typed `Unparseable` error is
raised exactly in the second case (a trimmed-empty sentence raises the
untyped invalid-query error), and a successful parse never returns the
empty FilterSpec. -/
theorem C3_failure_amended (s : List Char) :
    (isErr (parseNaturalLanguageA s) = true ↔
      (trimJS s = [] ∨ buildA (s.map toLowerJS) = emptySpec)) ∧
    (parseNaturalLanguageA s = Except.error ParseErr.unparseable ↔
      (trimJS s ≠ [] ∧ buildA (s.map toLowerJS) = emptySpec)) ∧
    (parseNaturalLanguageA s = Except.error ParseErr.invalidQuery ↔
      trimJS s = []) ∧
    (∀ f, parseNaturalLanguageA s = Except.ok f → f ≠ emptySpec) := by
  unfold parseNaturalLanguageA
  by_cases h1 : (trimJS s).isEmpty
  · rw [if_pos h1]
    have he : trimJS s = [] := List.isEmpty_iff.mp h1
    refine ⟨by simp [isErr, he], ?_, by simp [he], by simp⟩
    constructor
    · intro hh
      exact absurd hh (by decide)
    · intro hh
      exact absurd he hh.1
  · rw [if_neg h1]
    have he : trimJS s ≠ [] := fun hh => h1 (List.isEmpty_iff.mpr hh)
    by_cases h2 : buildA (s.map toLowerJS) = emptySpec
    · rw [if_pos h2]
      refine ⟨by simp [isErr, he, h2], by simp [he, h2], ?_, by simp⟩
      constructor
      · intro hh
        exact absurd hh (by decide)
      · intro hh
        exact absurd hh (by simp [he])
    · rw [if_neg h2]
      refine ⟨?_, by simp [h2], ?_, ?_⟩
      · simp [isErr, h2]
        exact he
      · simp
        exact he
      intro f hf heq
      apply h2
      injection hf with hh
      rw [hh, heq]

/-- C4: any FilterSpec produced by either natural-language parser selects,
through the query built by `filterByNaturalLanguage`, exactly the records
the explicit-parameter query of `getAllStrings` selects with the same field
values: the two query constructions are semantically equivalent on every
stored Properties. -/
theorem C4_query_equivalence (s : List Char) (f : FilterSpec) (p : Properties)
    (h : parseNaturalLanguageA s = Except.ok f ∨
         parseNaturalLanguageB s = Except.ok f) :
    evalStoreQuery (toStoreQueryNL f) p = evalStoreQuery (toStoreQueryExplicit f) p := by
  have hq : toStoreQueryNL f = toStoreQueryExplicit f := by
    unfold toStoreQueryNL toStoreQueryExplicit
    cases hc : f.contains_character <;> simp [hc]
  rw [hq]

/-- C4 (witness): the equivalence at the parsed sentence `single word` and
the stored string `a`. -/
theorem C4_query_equivalence_witness :
    evalStoreQuery (toStoreQueryNL { word_count := some 1 }) (analyze ['a']) =
    evalStoreQuery (toStoreQueryExplicit { word_count := some 1 })
      (analyze ['a']) :=
  C4_query_equivalence
    ['s', 'i', 'n', 'g', 'l', 'e', ' ', 'w', 'o', 'r', 'd']
    { word_count := some 1 } (analyze ['a']) (Or.inl (by decide))

/-- C5: for every alphanumeric character `X`, the canonical
alphanumeric-capture parser (variant B, the one the spec adopts) compiles
each of `containing the letter X`, `containing X` and `contains X` to a
FilterSpec whose only field is `contains_character = lowercase(X)`; in the
first form the captured character is `X` itself, not a character of the
later alternatives — the first satisfied alternative wins. -/
theorem C5_contains_rule (X : Char) (h : X ∈ alphaNumChars) :
    parseNaturalLanguageB (litContainingTheLetter ++ [X]) =
      Except.ok { contains_character := some (toLowerJS X) } ∧
    parseNaturalLanguageB (litContaining ++ [X]) =
      Except.ok { contains_character := some (toLowerJS X) } ∧
    parseNaturalLanguageB (litContainsSp ++ [X]) =
      Except.ok { contains_character := some (toLowerJS X) } := by
  revert X
  decide

/-- C5 (witness): the three phrasings at the concrete character `B`. -/
theorem C5_contains_rule_witness :
    parseNaturalLanguageB (litContainingTheLetter ++ ['B']) =
      Except.ok { contains_character := some (toLowerJS 'B') } ∧
    parseNaturalLanguageB (litContaining ++ ['B']) =
      Except.ok { contains_character := some (toLowerJS 'B') } ∧
    parseNaturalLanguageB (litContainsSp ++ ['B']) =
      Except.ok { contains_character := some (toLowerJS 'B') } :=
  C5_contains_rule 'B' (by decide)

/-- C7: `longer than N` compiles to `min_length = N + 1` and
`shorter than N` to `max_length = N - 1` (strict bounds made inclusive):
whenever the regex captures the digit run `ds` in any lower-cased sentence,
the parse succeeds with the corresponding bound on the captured value; on
the canonical sentences the captured run is the numeral of `N` and
`parseInt` reads back `N`; and
`compile("palindromic strings longer than 5")` is
`{is_palindrome: true, min_length: 6}`. -/
theorem C7_length_bounds :
    (∀ s ds : List Char, scanLonger (s.map toLowerJS) = some ds →
      parseNaturalLanguageA s = Except.ok (buildA (s.map toLowerJS)) ∧
      (buildA (s.map toLowerJS)).min_length = some ((digitsVal ds : Int) + 1)) ∧
    (∀ s ds : List Char, scanShorter (s.map toLowerJS) = some ds →
      parseNaturalLanguageA s = Except.ok (buildA (s.map toLowerJS)) ∧
      (buildA (s.map toLowerJS)).max_length = some ((digitsVal ds : Int) - 1)) ∧
    (∀ N : Nat,
      parseNaturalLanguageA (litLongerThan ++ natDigits N) =
        Except.ok (buildA ((litLongerThan ++ natDigits N).map toLowerJS)) ∧
      (buildA ((litLongerThan ++ natDigits N).map toLowerJS)).min_length =
        some ((N : Int) + 1)) ∧
    (∀ N : Nat,
      parseNaturalLanguageA (litShorterThan ++ natDigits N) =
        Except.ok (buildA ((litShorterThan ++ natDigits N).map toLowerJS)) ∧
      (buildA ((litShorterThan ++ natDigits N).map toLowerJS)).max_length =
        some ((N : Int) - 1)) ∧
    parseNaturalLanguageA sentPalLonger5 =
      Except.ok { is_palindrome := some true, min_length := some 6 } := by
  have notWs : ∀ (s : List Char), (trimJS s).isEmpty = true →
      ∀ c ∈ s.map toLowerJS, isWsJS c = true := by
    intro s hE c hc
    have hws := (trimJS_eq_nil_iff s).mp (List.isEmpty_iff.mp hE)
    rcases List.mem_map.mp hc with ⟨a, ha, rfl⟩
    rw [isWsJS_toLowerJS]
    exact hws a ha
  have part1 : ∀ s ds : List Char, scanLonger (s.map toLowerJS) = some ds →
      parseNaturalLanguageA s = Except.ok (buildA (s.map toLowerJS)) ∧
      (buildA (s.map toLowerJS)).min_length =
        some ((digitsVal ds : Int) + 1) := by
    intro s ds h
    have hE : (trimJS s).isEmpty = false := by
      cases hE : (trimJS s).isEmpty
      · rfl
      · have : scanLonger (s.map toLowerJS) = none :=
          scanDigits_none_of_ws 'l'
            ['o', 'n', 'g', 'e', 'r', ' ', 't', 'h', 'a', 'n', ' ']
            (by decide) (s.map toLowerJS) (notWs s hE)
        rw [h] at this
        cases this
    have hfield : (buildA (s.map toLowerJS)).min_length =
        some ((digitsVal ds : Int) + 1) := by
      simp [buildA, h]
    have hneq : buildA (s.map toLowerJS) ≠ emptySpec := by
      intro hh
      have hf := congrArg FilterSpec.min_length hh
      rw [hfield] at hf
      simp [emptySpec] at hf
    refine ⟨?_, hfield⟩
    unfold parseNaturalLanguageA
    rw [hE]
    simp only [Bool.false_eq_true, if_false]
    rw [if_neg hneq]
  have part2 : ∀ s ds : List Char, scanShorter (s.map toLowerJS) = some ds →
      parseNaturalLanguageA s = Except.ok (buildA (s.map toLowerJS)) ∧
      (buildA (s.map toLowerJS)).max_length =
        some ((digitsVal ds : Int) - 1) := by
    intro s ds h
    have hE : (trimJS s).isEmpty = false := by
      cases hE : (trimJS s).isEmpty
      · rfl
      · have : scanShorter (s.map toLowerJS) = none :=
          scanDigits_none_of_ws 's'
            ['h', 'o', 'r', 't', 'e', 'r', ' ', 't', 'h', 'a', 'n', ' ']
            (by decide) (s.map toLowerJS) (notWs s hE)
        rw [h] at this
        cases this
    have hfield : (buildA (s.map toLowerJS)).max_length =
        some ((digitsVal ds : Int) - 1) := by
      simp [buildA, h]
    have hneq : buildA (s.map toLowerJS) ≠ emptySpec := by
      intro hh
      have hf := congrArg FilterSpec.max_length hh
      rw [hfield] at hf
      simp [emptySpec] at hf
    refine ⟨?_, hfield⟩
    unfold parseNaturalLanguageA
    rw [hE]
    simp only [Bool.false_eq_true, if_false]
    rw [if_neg hneq]
  have hlitL : litLongerThan.map toLowerJS = litLongerThan := by decide
  have hlitS : litShorterThan.map toLowerJS = litShorterThan := by decide
  refine ⟨part1, part2, ?_, ?_, by decide⟩
  · intro N
    have hall := natDigits_all_digit N
    have hmap : (litLongerThan ++ natDigits N).map toLowerJS =
        litLongerThan ++ natDigits N := by
      rw [List.map_append, hlitL, map_toLowerJS_digits _ hall]
    have hscan : scanLonger ((litLongerThan ++ natDigits N).map toLowerJS) =
        some (natDigits N) := by
      rw [hmap]
      exact scanDigits_append 'l'
        ['o', 'n', 'g', 'e', 'r', ' ', 't', 'h', 'a', 'n', ' ']
        (natDigits N) (natDigits_ne_nil N) hall
    obtain ⟨hok, hfield⟩ := part1 (litLongerThan ++ natDigits N) (natDigits N) hscan
    refine ⟨hok, ?_⟩
    rw [hfield, digitsVal_natDigits]
  · intro N
    have hall := natDigits_all_digit N
    have hmap : (litShorterThan ++ natDigits N).map toLowerJS =
        litShorterThan ++ natDigits N := by
      rw [List.map_append, hlitS, map_toLowerJS_digits _ hall]
    have hscan : scanShorter ((litShorterThan ++ natDigits N).map toLowerJS) =
        some (natDigits N) := by
      rw [hmap]
      exact scanDigits_append 's'
        ['h', 'o', 'r', 't', 'e', 'r', ' ', 't', 'h', 'a', 'n', ' ']
        (natDigits N) (natDigits_ne_nil N) hall
    obtain ⟨hok, hfield⟩ := part2 (litShorterThan ++ natDigits N) (natDigits N) hscan
    refine ⟨hok, ?_⟩
    rw [hfield, digitsVal_natDigits]
